import Mathlib

/- Shallow embedding of the ASCII diagram rendering engine of
`src/mcp_google_sheets/server.py` (the text-diagram composition core).

Modelling conventions:
* Python strings are `List Char`; Python string concatenation is `++`,
  `s * n` is `List.replicate`, `"".join` / `sep.join` is `List.intercalate`.
* Python `int` is `Int`; Python floor division `//` is `Int.fdiv`
  (Python `//` floors), `%` on positive divisors is `Int.emod`.
* Python `float` inputs of the chart renderers are modelled as exact
  rationals `ℚ`; `int(x)` (truncation toward zero) is `pyInt`.
* Dictionary elements with `.get` defaults are structures of `Option`
  fields read through `Option.getD`.
* Where Python would raise (index error, `max` of an empty sequence) the
  model totalises with a neutral default; every theorem below stays inside
  the domain where the source does not raise. -/

namespace AsciiDiagram

/-- Python string slice `s[:w]`: for `w ≥ 0` the first `w` characters,
for `w < 0` all but the last `-w` characters. -/
def pyTruncAt (s : List Char) (w : Int) : List Char :=
  if 0 ≤ w then s.take w.toNat else s.take ((s.length : Int) + w).toNat

/-- Python string repetition `c * n` (empty for `n ≤ 0`). -/
def pyRep (c : Char) (n : Int) : List Char :=
  List.replicate n.toNat c

/-- Python `int(q)`: truncation toward zero. -/
def pyInt (q : ℚ) : Int :=
  q.num.tdiv q.den

/-- Python `str.ljust`. -/
def pyLjust (s : List Char) (w : Nat) : List Char :=
  s ++ List.replicate (w - s.length) ' '

/-- Rounding to the nearest integer, ties to even — the rounding applied
by Python `format(x, ".0f")` (modelled on exact rationals). -/
def roundHalfEven (q : ℚ) : Int :=
  let f := ⌊q⌋
  let r := q - (f : ℚ)
  if r < 1/2 then f
  else if 1/2 < r then f + 1
  else if f % 2 = 0 then f else f + 1

-- ---------------------------------------------------------------------------
-- Glyph tables (module-level constants `ASCII`, `CHART_BLOCKS`,
-- `SPARKLINE_CHARS`, `SHADING_PALETTES`, `BOX_STYLES` of the source)
-- ---------------------------------------------------------------------------

def ASCII_tl : Char := '┌'
def ASCII_tr : Char := '┐'
def ASCII_bl : Char := '└'
def ASCII_br : Char := '┘'
def ASCII_h : Char := '─'
def ASCII_v : Char := '│'
def ASCII_arrow_r : Char := '►'
def ASCII_arrow_l : Char := '◄'
def ASCII_arrow_d : Char := '▼'
def ASCII_arrow_u : Char := '▲'
def ASCII_t_down : Char := '┬'
def ASCII_t_up : Char := '┴'
def ASCII_t_right : Char := '├'
def ASCII_t_left : Char := '┤'
def ASCII_cross : Char := '┼'

/-- `CHART_BLOCKS = "█▉▊▋▌▍▎▏"` (full to 1/8 blocks). -/
def CHART_BLOCKS : List Char := "█▉▊▋▌▍▎▏".toList

/-- `SPARKLINE_CHARS = "▁▂▃▄▅▆▇█"` (bottom to top). -/
def SPARKLINE_CHARS : List Char := "▁▂▃▄▅▆▇█".toList

-- ---------------------------------------------------------------------------
-- `_ascii_center`
-- ---------------------------------------------------------------------------

/-- `_ascii_center(text, width)`: center text within the given width;
text at least as long as the width is cut to `text[:width]`. -/
def _ascii_center (text : List Char) (width : Int) : List Char :=
  if (text.length : Int) ≥ width then pyTruncAt text width
  else
    let padding := width - (text.length : Int)
    let left := padding.fdiv 2
    let right := padding - left
    pyRep ' ' left ++ text ++ pyRep ' ' right

theorem pyRep_length (c : Char) (n : Int) : (pyRep c n).length = n.toNat := by
  simp [pyRep]

theorem length_ascii_center (text : List Char) (w : Int) (hw : 0 ≤ w) :
    ((_ascii_center text w).length : Int) = w := by
  unfold _ascii_center
  by_cases h : (text.length : Int) ≥ w
  · simp only [h, if_true, pyTruncAt, hw, if_pos]
    simp only [List.length_take]
    omega
  · simp only [h, if_false]
    have hpad : (0:Int) ≤ w - (text.length : Int) := by omega
    have hl := Int.fdiv_eq_ediv (w - (text.length : Int)) (b := 2) (by decide)
    simp only [List.length_append, pyRep_length]
    push_cast
    omega

/-- C7 — Centering tie-break: for a line of length `L` centered in width
`W` with `L ≤ W`, the output is left padding of `(W-L)//2` spaces, the
line, then right padding of `(W-L) - left` spaces; for even `W-L` the two
paddings are equal, and for odd `W-L` the left one is strictly smaller. -/
theorem c7_centering_tie_break (text : List Char) (W : Int)
    (h : (text.length : Int) ≤ W) :
    _ascii_center text W =
        pyRep ' ' ((W - (text.length : Int)).fdiv 2) ++ text ++
        pyRep ' ' ((W - (text.length : Int)) - (W - (text.length : Int)).fdiv 2)
      ∧ ((W - (text.length : Int)) % 2 = 0 →
          (W - (text.length : Int)).fdiv 2 =
          (W - (text.length : Int)) - (W - (text.length : Int)).fdiv 2)
      ∧ ((W - (text.length : Int)) % 2 = 1 →
          (W - (text.length : Int)).fdiv 2 <
          (W - (text.length : Int)) - (W - (text.length : Int)).fdiv 2) := by
  have hd := Int.fdiv_eq_ediv (W - (text.length : Int)) (b := 2) (by decide)
  refine ⟨?_, by omega, by omega⟩
  unfold _ascii_center
  by_cases hEq : (text.length : Int) ≥ W
  · have hLW : (text.length : Int) = W := le_antisymm h hEq
    have hz : W - (text.length : Int) = 0 := by omega
    simp [hEq, hz, pyTruncAt, pyRep, pyTruncAt, ← hLW]
  · simp [hEq]

/-- Witness for C7 at text "ab", width 5 (odd leftover 3). -/
theorem c7_centering_tie_break_witness :
    _ascii_center [' ', ' '] 5 =
        pyRep ' ' ((5 - (2:Int)).fdiv 2) ++ [' ', ' '] ++
        pyRep ' ' ((5 - (2:Int)) - (5 - (2:Int)).fdiv 2)
      ∧ (((5:Int) - 2) % 2 = 0 → ((5:Int) - 2).fdiv 2 = (5 - 2) - ((5:Int) - 2).fdiv 2)
      ∧ (((5:Int) - 2) % 2 = 1 → ((5:Int) - 2).fdiv 2 < (5 - 2) - ((5:Int) - 2).fdiv 2) := by
  have h := c7_centering_tie_break [' ', ' '] 5 (by decide)
  simpa using h

-- ---------------------------------------------------------------------------
-- `_ascii_box`
-- ---------------------------------------------------------------------------

/-- Content argument of `_ascii_box`: Python `Union[str, List[str]]`. -/
inductive BoxContent where
  | str : List Char → BoxContent
  | list : List (List Char) → BoxContent
deriving DecidableEq

/-- `lines = [content] if isinstance(content, str) else content`. -/
def boxContentLines : BoxContent → List (List Char)
  | .str s => [s]
  | .list ls => ls

/-- `max(len(line) for line in lines)` (`0` for the empty list, where the
source would raise `ValueError`). -/
def maxLen (lines : List (List Char)) : Nat :=
  lines.foldl (fun a l => max a l.length) 0

/-- Python truthiness of the `width` argument of `_ascii_box`
(`None` and `0` are falsy, hence trigger auto-width). -/
def widthFalsy : Option Int → Bool
  | none => true
  | some w => w = 0

/-- `inner_width = max(len(line) for line in lines) if not width else
width - 2 - (padding * 2)`. -/
def boxInnerWidth (lines : List (List Char)) (width : Option Int) (padding : Int) : Int :=
  if widthFalsy width then (maxLen lines : Int)
  else width.getD 0 - 2 - padding * 2

/-- `_ascii_box(content, width, padding, bottom_connector, top_connector)`:
bordered box around the content lines, each centered in the inner width,
with optional T-junction connectors in the middle of the top/bottom border. -/
def _ascii_box (content : BoxContent) (width : Option Int) (padding : Int)
    (bottom_connector : Bool) (top_connector : Bool) : List (List Char) :=
  let lines := boxContentLines content
  let inner_width := boxInnerWidth lines width padding
  let total_width := inner_width + 2 + padding * 2
  let top :=
    if top_connector then
      let half := (total_width - 3).fdiv 2
      let rem := (total_width - 3) - half
      [ASCII_tl] ++ pyRep ASCII_h half ++ [ASCII_t_down] ++ pyRep ASCII_h rem ++ [ASCII_tr]
    else [ASCII_tl] ++ pyRep ASCII_h (total_width - 2) ++ [ASCII_tr]
  let mid := lines.map (fun line =>
    [ASCII_v] ++ pyRep ' ' padding ++ _ascii_center line inner_width ++
      pyRep ' ' padding ++ [ASCII_v])
  let bot :=
    if bottom_connector then
      let half := (total_width - 3).fdiv 2
      let rem := (total_width - 3) - half
      [ASCII_bl] ++ pyRep ASCII_h half ++ [ASCII_t_up] ++ pyRep ASCII_h rem ++ [ASCII_br]
    else [ASCII_bl] ++ pyRep ASCII_h (total_width - 2) ++ [ASCII_br]
  [top] ++ mid ++ [bot]

theorem ascii_box_num_lines (content : BoxContent) (width : Option Int) (padding : Int)
    (bc tc : Bool) :
    (_ascii_box content width padding bc tc).length = (boxContentLines content).length + 2 := by
  unfold _ascii_box
  simp only [List.length_append, List.length_map, List.length_singleton]
  omega

theorem ascii_box_line_lengths (content : BoxContent) (width : Option Int) (padding : Int)
    (bc tc : Bool) (hp : 0 ≤ padding)
    (hin : 0 ≤ boxInnerWidth (boxContentLines content) width padding)
    (hc : bc = true ∨ tc = true →
      3 ≤ boxInnerWidth (boxContentLines content) width padding + 2 + padding * 2) :
    ∀ l ∈ _ascii_box content width padding bc tc,
      (l.length : Int) = boxInnerWidth (boxContentLines content) width padding + 2 + padding * 2 := by
  intro l hl
  unfold _ascii_box at hl
  simp only [List.mem_append, List.mem_singleton, List.mem_map] at hl
  have hfd := Int.fdiv_eq_ediv
    (boxInnerWidth (boxContentLines content) width padding + 2 + padding * 2 - 3)
    (b := 2) (by decide)
  rcases hl with (htop | ⟨line, hline, hleq⟩) | hbot
  · cases tc with
    | true =>
      have h3 := hc (Or.inr rfl)
      subst htop
      rw [if_pos rfl]
      simp only [List.length_append, pyRep_length, List.length_singleton]
      push_cast
      omega
    | false =>
      subst htop
      rw [if_neg (by decide)]
      simp only [List.length_append, pyRep_length, List.length_singleton]
      push_cast
      omega
  · subst hleq
    have hcen := length_ascii_center line
      (boxInnerWidth (boxContentLines content) width padding) hin
    simp only [List.length_append, pyRep_length, List.length_singleton]
    push_cast
    omega
  · cases bc with
    | true =>
      have h3 := hc (Or.inl rfl)
      subst hbot
      rw [if_pos rfl]
      simp only [List.length_append, pyRep_length, List.length_singleton]
      push_cast
      omega
    | false =>
      subst hbot
      rw [if_neg (by decide)]
      simp only [List.length_append, pyRep_length, List.length_singleton]
      push_cast
      omega

/-- C1 (counterexample) — as stated over every combination of parameters,
rectangularity fails: a box around the non-empty string "A" with explicit
width 3 and padding 1 has lines of lengths 3, 4, 3. -/
theorem c1_rectangularity_counterexample :
    ¬ (∀ l₁ ∈ _ascii_box (.str ['A']) (some 3) 1 false false,
       ∀ l₂ ∈ _ascii_box (.str ['A']) (some 3) 1 false false,
         l₁.length = l₂.length) := by
  decide

/-- C1 (amended) — rectangularity of box rendering holds whenever the
parameters are geometrically consistent: padding is non-negative, an
explicit non-zero width is at least `2 + 2*padding` (so the inner width
is non-negative), and the total width is at least 3 when a connector is
requested; then every rendered line has length exactly the total width. -/
theorem c1_box_rectangularity (content : BoxContent) (width : Option Int) (padding : Int)
    (bc tc : Bool) (hp : 0 ≤ padding)
    (hw : widthFalsy width = true ∨ 2 + padding * 2 ≤ width.getD 0)
    (hc : bc = true ∨ tc = true →
      3 ≤ boxInnerWidth (boxContentLines content) width padding + 2 + padding * 2) :
    (_ascii_box content width padding bc tc).map (fun l => (l.length : Int)) =
      List.replicate ((boxContentLines content).length + 2)
        (boxInnerWidth (boxContentLines content) width padding + 2 + padding * 2) := by
  have hin : 0 ≤ boxInnerWidth (boxContentLines content) width padding := by
    by_cases hf : widthFalsy width = true
    · simp only [boxInnerWidth, hf, if_true]
      positivity
    · rcases hw with hw | hw
      · exact absurd hw hf
      · simp only [boxInnerWidth, hf, if_false]
        omega
  have hlen := ascii_box_line_lengths content width padding bc tc hp hin hc
  rw [List.eq_replicate_iff]
  constructor
  · rw [List.length_map, ascii_box_num_lines]
  · intro b hb
    rw [List.mem_map] at hb
    obtain ⟨l, hl, rfl⟩ := hb
    exact hlen l hl

/-- Witness for C1 at content ["Hi"], auto width, padding 1, bottom
connector on: all three lines have length 6. -/
theorem c1_box_rectangularity_witness :
    (_ascii_box (.list [['H', 'i']]) none 1 true false).map (fun l => (l.length : Int)) =
      List.replicate ((boxContentLines (.list [['H', 'i']])).length + 2)
        (boxInnerWidth (boxContentLines (.list [['H', 'i']])) none 1 + 2 + 1 * 2) := by
  exact c1_box_rectangularity (.list [['H', 'i']]) none 1 true false (by decide)
    (Or.inl (by decide)) (fun h => by decide)

/-- C10 — the centering helper always returns exactly `width` characters
for `width ≥ 0`; text longer than `width` is silently truncated to its
first `width` characters. -/
theorem c10_center_truncates (text : List Char) (w : Int) (hw : 0 ≤ w) :
    ((_ascii_center text w).length : Int) = w
      ∧ (w ≤ (text.length : Int) → _ascii_center text w = text.take w.toNat) := by
  refine ⟨length_ascii_center text w hw, fun hlt => ?_⟩
  unfold _ascii_center
  simp [pyTruncAt, hlt, hw]

/-- Witness for C10 at text "abcd", width 2. -/
theorem c10_center_truncates_witness :
    ((_ascii_center ['a', 'b', 'c', 'd'] 2).length : Int) = 2
      ∧ ((2:Int) ≤ (([ 'a', 'b', 'c', 'd'] : List Char).length : Int) →
          _ascii_center ['a', 'b', 'c', 'd'] 2 = (['a', 'b', 'c', 'd'] : List Char).take (2:Int).toNat) := by
  exact c10_center_truncates ['a', 'b', 'c', 'd'] 2 (by decide)

-- ---------------------------------------------------------------------------
-- `_ascii_arrow`
-- ---------------------------------------------------------------------------

def dirRight : String := "right"
def dirLeft : String := "left"
def dirDown : String := "down"
def dirUp : String := "up"

/-- `_ascii_arrow(direction, length)`: a one-line arrow; horizontal
directions emit `length - 1` horizontal glyphs plus one arrowhead,
vertical directions emit a single vertical glyph (per line). -/
def _ascii_arrow (direction : String) (n : Int) : List Char :=
  if direction = dirRight then pyRep ASCII_h (n - 1) ++ [ASCII_arrow_r]
  else if direction = dirLeft then [ASCII_arrow_l] ++ pyRep ASCII_h (n - 1)
  else if direction = dirDown then [ASCII_v]
  else if direction = dirUp then [ASCII_v]
  else pyRep ASCII_h n

/-- C3 (counterexample) — at length 1 a right arrow is the single
arrowhead character, not `length + 1 = 2` characters as claimed. -/
theorem c3_arrow_counterexample :
    ((_ascii_arrow dirRight 1).length : Int) ≠ 1 + 1 := by
  decide

/-- C3 (amended) — for every length ≥ 1, a horizontal arrow is a single
line of `length - 1` horizontal glyphs terminated by the directional
arrowhead (arrowhead at the right end for `right`, at the left end for
`left`), so the line is exactly `length` characters long. -/
theorem c3_horizontal_arrow (n : Int) (h : 1 ≤ n) :
    _ascii_arrow dirRight n = pyRep ASCII_h (n - 1) ++ [ASCII_arrow_r]
      ∧ _ascii_arrow dirLeft n = [ASCII_arrow_l] ++ pyRep ASCII_h (n - 1)
      ∧ ((_ascii_arrow dirRight n).length : Int) = n
      ∧ ((_ascii_arrow dirLeft n).length : Int) = n := by
  have hr : _ascii_arrow dirRight n = pyRep ASCII_h (n - 1) ++ [ASCII_arrow_r] := by
    unfold _ascii_arrow
    rw [if_pos rfl]
  have hl : _ascii_arrow dirLeft n = [ASCII_arrow_l] ++ pyRep ASCII_h (n - 1) := by
    unfold _ascii_arrow
    rw [if_neg (by decide), if_pos rfl]
  refine ⟨hr, hl, ?_, ?_⟩ <;>
    simp only [hr, hl, List.length_append, pyRep_length, List.length_singleton] <;>
    push_cast <;> omega

/-- Witness for C3 at the default length 8. -/
theorem c3_horizontal_arrow_witness :
    _ascii_arrow dirRight 8 = pyRep ASCII_h (8 - 1) ++ [ASCII_arrow_r]
      ∧ _ascii_arrow dirLeft 8 = [ASCII_arrow_l] ++ pyRep ASCII_h (8 - 1)
      ∧ ((_ascii_arrow dirRight 8).length : Int) = 8
      ∧ ((_ascii_arrow dirLeft 8).length : Int) = 8 := by
  exact c3_horizontal_arrow 8 (by decide)

-- ---------------------------------------------------------------------------
-- `_ascii_sparkline`
-- ---------------------------------------------------------------------------

/-- Python `min(values)` (`0` for the empty list, where the source raises). -/
def listMinQ : List ℚ → ℚ
  | [] => 0
  | x :: xs => xs.foldl min x

/-- Python `max(values)` (`0` for the empty list, where the source raises). -/
def listMaxQ : List ℚ → ℚ
  | [] => 0
  | x :: xs => xs.foldl max x

theorem foldl_min_le_init (xs : List ℚ) (x : ℚ) : xs.foldl min x ≤ x := by
  induction xs generalizing x with
  | nil => simp
  | cons y ys ih =>
    calc (y :: ys).foldl min x = ys.foldl min (min x y) := rfl
    _ ≤ min x y := ih _
    _ ≤ x := min_le_left _ _

theorem foldl_min_le_mem (xs : List ℚ) (x v : ℚ) (hv : v ∈ xs) : xs.foldl min x ≤ v := by
  induction xs generalizing x with
  | nil => cases hv
  | cons y ys ih =>
    rcases List.mem_cons.mp hv with rfl | hv'
    · calc (v :: ys).foldl min x = ys.foldl min (min x v) := rfl
      _ ≤ min x v := foldl_min_le_init _ _
      _ ≤ v := min_le_right _ _
    · exact ih _ hv'

theorem init_le_foldl_max (xs : List ℚ) (x : ℚ) : x ≤ xs.foldl max x := by
  induction xs generalizing x with
  | nil => simp
  | cons y ys ih =>
    calc x ≤ max x y := le_max_left _ _
    _ ≤ ys.foldl max (max x y) := ih _
    _ = (y :: ys).foldl max x := rfl

theorem mem_le_foldl_max (xs : List ℚ) (x v : ℚ) (hv : v ∈ xs) : v ≤ xs.foldl max x := by
  induction xs generalizing x with
  | nil => cases hv
  | cons y ys ih =>
    rcases List.mem_cons.mp hv with rfl | hv'
    · calc v ≤ max x v := le_max_right _ _
      _ ≤ ys.foldl max (max x v) := init_le_foldl_max _ _
      _ = (v :: ys).foldl max x := rfl
    · exact ih _ hv'

theorem listMinQ_le_mem (values : List ℚ) (v : ℚ) (hv : v ∈ values) :
    listMinQ values ≤ v := by
  cases values with
  | nil => cases hv
  | cons x xs =>
    rcases List.mem_cons.mp hv with rfl | hv'
    · exact foldl_min_le_init xs v
    · exact foldl_min_le_mem xs x v hv'

theorem mem_le_listMaxQ (values : List ℚ) (v : ℚ) (hv : v ∈ values) :
    v ≤ listMaxQ values := by
  cases values with
  | nil => cases hv
  | cons x xs =>
    rcases List.mem_cons.mp hv with rfl | hv'
    · exact init_le_foldl_max xs v
    · exact mem_le_foldl_max xs x v hv'

theorem pyInt_eq_floor (q : ℚ) (h : 0 ≤ q) : pyInt q = ⌊q⌋ := by
  unfold pyInt
  rw [Rat.floor_def, Int.tdiv_eq_ediv (Rat.num_nonneg.mpr h) (by positivity)]

theorem pyInt_intCast (n : Int) : pyInt (n : ℚ) = n := by
  unfold pyInt
  rw [Rat.num_intCast, Rat.den_intCast]
  exact Int.tdiv_one n

/-- `_ascii_sparkline(values)`: one ramp character per value, min-max
normalized to 8 levels; the middle ramp character for a constant series. -/
def _ascii_sparkline (values : List ℚ) : List Char :=
  if values = [] then []
  else
    let min_val := listMinQ values
    let max_val := listMaxQ values
    if max_val = min_val then List.replicate values.length (SPARKLINE_CHARS.getD 4 ' ')
    else values.map (fun v =>
      let idx := pyInt ((v - min_val) / (max_val - min_val) * 7)
      SPARKLINE_CHARS.getD (max 0 (min 7 idx)).toNat ' ')

/-- C5 — sparkline contract: one character per input value with no
separators; for a constant series every character is the ramp's middle
character (index 4); otherwise the character for `v` is the ramp
character at index `floor((v - min)/(max - min) * 7)` clamped to [0,7]. -/
theorem c5_sparkline (values : List ℚ) (hne : values ≠ []) :
    (_ascii_sparkline values).length = values.length
    ∧ (listMaxQ values = listMinQ values →
        _ascii_sparkline values = List.replicate values.length (SPARKLINE_CHARS.getD 4 ' '))
    ∧ (listMaxQ values ≠ listMinQ values →
        _ascii_sparkline values = values.map (fun v =>
          SPARKLINE_CHARS.getD
            (max 0 (min 7 ⌊(v - listMinQ values) / (listMaxQ values - listMinQ values) * 7⌋)).toNat
            ' ')) := by
  have hform : listMaxQ values ≠ listMinQ values →
      _ascii_sparkline values = values.map (fun v =>
        SPARKLINE_CHARS.getD
          (max 0 (min 7 ⌊(v - listMinQ values) / (listMaxQ values - listMinQ values) * 7⌋)).toNat
          ' ') := by
    intro hd
    unfold _ascii_sparkline
    rw [if_neg hne, if_neg hd]
    apply List.map_congr_left
    intro v hv
    have h1 : listMinQ values ≤ v := listMinQ_le_mem values v hv
    have h2 : v ≤ listMaxQ values := mem_le_listMaxQ values v hv
    have hlt : listMinQ values < listMaxQ values := lt_of_le_of_ne (h1.trans h2) (Ne.symm hd)
    have hq : 0 ≤ (v - listMinQ values) / (listMaxQ values - listMinQ values) * 7 := by
      have hnum : 0 ≤ v - listMinQ values := by linarith
      have hden : 0 < listMaxQ values - listMinQ values := by linarith
      positivity
    rw [pyInt_eq_floor _ hq]
  refine ⟨?_, ?_, hform⟩
  · by_cases hd : listMaxQ values = listMinQ values
    · unfold _ascii_sparkline
      rw [if_neg hne, if_pos hd]
      simp
    · rw [hform hd, List.length_map]
  · intro hd
    unfold _ascii_sparkline
    rw [if_neg hne, if_pos hd]

/-- Witness for C5 on the series [1, 1, 1] (constant) — via the degenerate
branch — and implicitly the general shape. -/
theorem c5_sparkline_witness :
    (_ascii_sparkline [1, 5, 3]).length = ([1, 5, 3] : List ℚ).length
    ∧ (listMaxQ [1, 5, 3] = listMinQ [1, 5, 3] →
        _ascii_sparkline [1, 5, 3] =
          List.replicate ([1, 5, 3] : List ℚ).length (SPARKLINE_CHARS.getD 4 ' '))
    ∧ (listMaxQ [1, 5, 3] ≠ listMinQ [1, 5, 3] →
        _ascii_sparkline [1, 5, 3] = ([1, 5, 3] : List ℚ).map (fun v =>
          SPARKLINE_CHARS.getD
            (max 0 (min 7 ⌊(v - listMinQ [1, 5, 3]) / (listMaxQ [1, 5, 3] - listMinQ [1, 5, 3]) * 7⌋)).toNat
            ' ')) := by
  exact c5_sparkline [1, 5, 3] (by decide)

-- ---------------------------------------------------------------------------
-- `_ascii_progress_bar`
-- ---------------------------------------------------------------------------

/-- Decimal digit rendering of an integer (Python `str` of an int; the
model renders negative zero as "0"). -/
def intToChars (n : Int) : List Char :=
  if n < 0 then '-' :: Nat.toDigits 10 (-n).toNat else Nat.toDigits 10 n.toNat

/-- `_ascii_progress_bar(value, max_value, width, show_percent)`: a
bracketed bar of full blocks then light shade, with an optional
percentage label (Python `f"{x:.0f}"` modelled as round-half-even on
exact rationals). -/
def _ascii_progress_bar (value : ℚ) (max_value : ℚ) (width : Int)
    (show_percent : Bool) : List Char :=
  let r := if 0 < max_value then min (value / max_value) 1 else 0
  let filled := pyInt (r * (width : ℚ))
  let empty := width - filled
  let bar := ['['] ++ List.replicate filled.toNat (CHART_BLOCKS.getD 0 ' ') ++
    pyRep '░' empty ++ [']']
  if show_percent then bar ++ [' '] ++ intToChars (roundHalfEven (r * 100)) ++ ['%']
  else bar

/-- The half-even rounding used for the percent label is within 1/2 of
its argument (it rounds to a nearest integer). -/
theorem roundHalfEven_abs_le (q : ℚ) : |(roundHalfEven q : ℚ) - q| ≤ 1/2 := by
  unfold roundHalfEven
  have h1 : (⌊q⌋ : ℚ) ≤ q := Int.floor_le q
  have h2 : q < (⌊q⌋ : ℚ) + 1 := Int.lt_floor_add_one q
  by_cases hlt : q - (⌊q⌋ : ℚ) < 1/2
  · rw [if_pos hlt, abs_le]
    constructor <;> linarith
  · rw [if_neg hlt]
    by_cases hgt : 1/2 < q - (⌊q⌋ : ℚ)
    · rw [if_pos hgt, abs_le]
      push_cast
      constructor <;> linarith
    · rw [if_neg hgt]
      have heq : q - (⌊q⌋ : ℚ) = 1/2 := le_antisymm (not_lt.mp hgt) (not_lt.mp hlt)
      by_cases hev : ⌊q⌋ % 2 = 0
      · rw [if_pos hev, abs_le]
        constructor <;> linarith
      · rw [if_neg hev, abs_le]
        push_cast
        constructor <;> linarith

/-- C2 (counterexample) — for a negative value the code does not clamp
the ratio below at 0: at value −100, max 100, width 10 (no percent
label) the bar contains 20 light-shade glyphs, not the claimed empty
bar of width 10. -/
theorem c2_progress_counterexample :
    _ascii_progress_bar (-100) 100 10 false ≠
      ['['] ++ List.replicate 10 '░' ++ [']'] := by
  unfold _ascii_progress_bar
  dsimp only
  rw [if_neg (by decide)]
  rw [if_pos (by norm_num : (0:ℚ) < 100)]
  have h1 : min ((-100:ℚ) / 100) 1 = -1 := by norm_num
  rw [h1]
  have h2 : pyInt ((-1:ℚ) * ((10:Int) : ℚ)) = -10 := by
    have he : ((-1:ℚ) * ((10:Int) : ℚ)) = ((-10:Int) : ℚ) := by norm_num
    rw [he, pyInt_intCast]
  rw [h2]
  decide

/-- C2 (amended) — for every non-negative value, positive max and
non-negative width: the ratio is `min(value/max_value, 1)` which (for
non-negative values) equals `clamp(value/max_value, 0, 1)`; the bar is
`filled = floor(ratio*width)` full blocks then `width - filled` light
shades inside brackets (a fill region of exactly `width` characters);
an optional trailing percentage label holds `ratio*100` rounded to a
nearest integer. For negative values the lower clamp is absent. -/
theorem c2_progress_bar (value max_value : ℚ) (width : Int) (show_percent : Bool)
    (hm : 0 < max_value) (hv : 0 ≤ value) (hw : 0 ≤ width) :
    _ascii_progress_bar value max_value width show_percent =
      ['['] ++ List.replicate (⌊min (value / max_value) 1 * (width : ℚ)⌋).toNat '█' ++
        List.replicate (width - ⌊min (value / max_value) 1 * (width : ℚ)⌋).toNat '░' ++ [']'] ++
      (if show_percent then
        [' '] ++ intToChars (roundHalfEven (min (value / max_value) 1 * 100)) ++ ['%']
       else [])
    ∧ min (value / max_value) 1 = max 0 (min (value / max_value) 1)
    ∧ 0 ≤ ⌊min (value / max_value) 1 * (width : ℚ)⌋
    ∧ ⌊min (value / max_value) 1 * (width : ℚ)⌋ ≤ width
    ∧ (⌊min (value / max_value) 1 * (width : ℚ)⌋).toNat
        + (width - ⌊min (value / max_value) 1 * (width : ℚ)⌋).toNat = width.toNat
    ∧ |(roundHalfEven (min (value / max_value) 1 * 100) : ℚ)
        - min (value / max_value) 1 * 100| ≤ 1/2 := by
  have hr0 : 0 ≤ min (value / max_value) 1 := by
    have : 0 ≤ value / max_value := by positivity
    simp only [le_min_iff]
    exact ⟨this, by norm_num⟩
  have hr1 : min (value / max_value) 1 ≤ 1 := min_le_right _ _
  have hq0 : 0 ≤ min (value / max_value) 1 * (width : ℚ) := by
    have hwq : (0:ℚ) ≤ (width : ℚ) := by exact_mod_cast hw
    positivity
  have hfl0 : 0 ≤ ⌊min (value / max_value) 1 * (width : ℚ)⌋ := Int.floor_nonneg.mpr hq0
  have hflw : ⌊min (value / max_value) 1 * (width : ℚ)⌋ ≤ width := by
    have hwq : (0:ℚ) ≤ (width : ℚ) := by exact_mod_cast hw
    have : min (value / max_value) 1 * (width : ℚ) ≤ (width : ℚ) := by nlinarith
    calc ⌊min (value / max_value) 1 * (width : ℚ)⌋ ≤ ⌊(width : ℚ)⌋ := Int.floor_le_floor this
    _ = width := Int.floor_intCast width
  refine ⟨?_, ?_, hfl0, hflw, by omega, roundHalfEven_abs_le _⟩
  · unfold _ascii_progress_bar
    dsimp only
    rw [if_pos hm, pyInt_eq_floor _ hq0]
    have hblk : CHART_BLOCKS.getD 0 ' ' = '█' := by decide
    cases show_percent with
    | true =>
      rw [if_pos rfl, if_pos rfl]
      simp only [hblk, pyRep, List.append_assoc]
    | false =>
      rw [if_neg (by decide), if_neg (by decide), List.append_nil]
      simp only [hblk, pyRep, List.append_assoc]
  · exact (max_eq_right hr0).symm

/-- Witness for C2 at value 50, max 100, width 10 with a percent label. -/
theorem c2_progress_bar_witness :
    _ascii_progress_bar 50 100 10 true =
      ['['] ++ List.replicate (⌊min ((50:ℚ) / 100) 1 * ((10:Int) : ℚ)⌋).toNat '█' ++
        List.replicate ((10:Int) - ⌊min ((50:ℚ) / 100) 1 * ((10:Int) : ℚ)⌋).toNat '░' ++ [']'] ++
      (if true then
        [' '] ++ intToChars (roundHalfEven (min ((50:ℚ) / 100) 1 * 100)) ++ ['%']
       else [])
    ∧ min ((50:ℚ) / 100) 1 = max 0 (min ((50:ℚ) / 100) 1)
    ∧ 0 ≤ ⌊min ((50:ℚ) / 100) 1 * ((10:Int) : ℚ)⌋
    ∧ ⌊min ((50:ℚ) / 100) 1 * ((10:Int) : ℚ)⌋ ≤ (10:Int)
    ∧ (⌊min ((50:ℚ) / 100) 1 * ((10:Int) : ℚ)⌋).toNat
        + ((10:Int) - ⌊min ((50:ℚ) / 100) 1 * ((10:Int) : ℚ)⌋).toNat = (10:Int).toNat
    ∧ |(roundHalfEven (min ((50:ℚ) / 100) 1 * 100) : ℚ)
        - min ((50:ℚ) / 100) 1 * 100| ≤ 1/2 := by
  exact c2_progress_bar 50 100 10 true (by norm_num) (by norm_num) (by norm_num)

-- ---------------------------------------------------------------------------
-- Contrast curve and shading palettes
-- ---------------------------------------------------------------------------

def paletteAscii : List Char := " .:-=+*#%@".toList
def paletteBlocks : List Char := " ░▒▓█".toList
def paletteDots : List Char := " ·∘○●◉".toList
def paletteDensity : List Char := " .,;!lI$@".toList
def paletteBraille : List Char := "⠀⠁⠃⠇⠏⠟⠿⣿".toList

def palAsciiName : String := "ascii"
def palBlocksName : String := "blocks"
def palDotsName : String := "dots"
def palDensityName : String := "density"
def palBrailleName : String := "braille"

/-- `SHADING_PALETTES.get(palette, SHADING_PALETTES["blocks"])`. -/
def shadingPalette (name : String) : List Char :=
  if name = palAsciiName then paletteAscii
  else if name = palBlocksName then paletteBlocks
  else if name = palDotsName then paletteDots
  else if name = palDensityName then paletteDensity
  else if name = palBrailleName then paletteBraille
  else paletteBlocks

theorem shadingPalette_nonempty (name : String) : 1 ≤ (shadingPalette name).length := by
  unfold shadingPalette
  split
  · decide
  · split
    · decide
    · split
      · decide
      · split
        · decide
        · split <;> decide

/-- `_ascii_apply_contrast(value, contrast)`: piecewise linear contrast
remap around the midpoint 0.5, clamped into `[0, 1]`. -/
def _ascii_apply_contrast (value : ℚ) (contrast : ℚ) : ℚ :=
  let result :=
    if contrast < 1/2 then 1/2 + (value - 1/2) * (contrast * 2)
    else
      let range_expand := (contrast - 1/2) * 2 + 1
      if value < 1/2 then 1/2 - (1/2 - value) * range_expand
      else 1/2 + (value - 1/2) * range_expand
  max 0 (min 1 result)

/-- The interior palette index computation of `_ascii_shaded_box`:
`char_idx = int(shade * (len(shade_chars) - 1))` clamped into range. -/
def shadeCharIdx (shade : ℚ) (n : Nat) : Int :=
  max 0 (min (pyInt (shade * ((n : Int) - 1 : Int))) ((n : Int) - 1))

/-- C8 — shade-to-palette clamping: for every raw shade value (hence for
every cell position, rectangle dimensions and direction, whose shade
functions produce some such value), every contrast and every palette
name, the contrast-adjusted shade is clamped into `[0,1]` before the
palette lookup, and the palette index computed from it lies within
`[0, len(palette) - 1]`. -/
theorem c8_shade_clamp (v contrast : ℚ) (name : String) :
    0 ≤ _ascii_apply_contrast v contrast
    ∧ _ascii_apply_contrast v contrast ≤ 1
    ∧ 0 ≤ shadeCharIdx (_ascii_apply_contrast v contrast) (shadingPalette name).length
    ∧ (shadeCharIdx (_ascii_apply_contrast v contrast) (shadingPalette name).length).toNat
        < (shadingPalette name).length := by
  have hn := shadingPalette_nonempty name
  refine ⟨?_, ?_, ?_, ?_⟩
  · exact le_max_left _ _
  · unfold _ascii_apply_contrast
    exact max_le (by norm_num) (min_le_left _ _)
  · exact le_max_left _ _
  · unfold shadeCharIdx
    have hle : max 0 (min (pyInt (_ascii_apply_contrast v contrast *
        (((shadingPalette name).length : Int) - 1)))
        (((shadingPalette name).length : Int) - 1)) ≤ ((shadingPalette name).length : Int) - 1 := by
      apply max_le
      · omega
      · exact min_le_right _ _
    omega

-- ---------------------------------------------------------------------------
-- `_ascii_box_row`
-- ---------------------------------------------------------------------------

/-- A box definition inside a `row` element: a Python dict read through
`box_def.get("lines", [box_def.get("text", "")])`. -/
structure BoxSpec where
  text : Option (List Char) := none
  lines : Option (List (List Char)) := none
deriving DecidableEq

def boxSpecContent (bs : BoxSpec) : List (List Char) :=
  bs.lines.getD [bs.text.getD []]

/-- Python list index assignment `l[i] = c` (negative indices wrap from
the end; out-of-range writes, which raise in Python, are no-ops here). -/
def pySet (l : List Char) (i : Int) (c : Char) : List Char :=
  if 0 ≤ i then l.set i.toNat c
  else if 0 ≤ (l.length : Int) + i then l.set ((l.length : Int) + i).toNat c
  else l

def intRangeAux (a : Int) : Nat → List Int
  | 0 => []
  | k + 1 => a :: intRangeAux (a + 1) k

/-- Python `range(a, b)` over integers. -/
def intRange (a b : Int) : List Int :=
  intRangeAux a (b - a).toNat

theorem intRange_nil (a b : Int) (h : b ≤ a) : intRange a b = [] := by
  unfold intRange
  rw [show (b - a).toNat = 0 by omega]
  rfl

theorem intRange_cons (a b : Int) (h : a < b) : intRange a b = a :: intRange (a + 1) b := by
  unfold intRange
  rw [show (b - a).toNat = (b - (a + 1)).toNat + 1 by omega]
  rfl

/-- The loop `for i in range(a, b): l[i] = c`. -/
def setRangeChar (l : List Char) (a b : Int) (c : Char) : List Char :=
  (intRange a b).foldl (fun acc i => pySet acc i c) l

/-- First stage of `_ascii_box_row`: render each box with default
arguments (auto width, padding 1, no connectors). -/
def rowRendered (boxes : List BoxSpec) : List (List (List Char)) :=
  boxes.map (fun bs => _ascii_box (.list (boxSpecContent bs)) none 1 false false)

/-- `max_height = max(len(b) for b in rendered_boxes)` (0 if empty,
where the source raises). -/
def rowMaxHeight (boxes : List BoxSpec) : Nat :=
  (rowRendered boxes).foldl (fun a b => max a b.length) 0

/-- The padding loop `while len(box) < max_height: box.insert(-1, ...)`:
blank interior lines are inserted just above the bottom border. -/
def padBoxTo (b : List (List Char)) (h : Nat) : List (List Char) :=
  b.dropLast ++
    List.replicate (h - b.length)
      ([ASCII_v] ++ List.replicate ((b.headD []).length - 2) ' ' ++ [ASCII_v]) ++
    (match b.getLast? with | some x => [x] | none => [])

def rowPadded (boxes : List BoxSpec) : List (List (List Char)) :=
  (rowRendered boxes).map (fun b => padBoxTo b (rowMaxHeight boxes))

/-- Row-wise combination `spacer.join([box[row_idx] for box in boxes])`. -/
def rowCombined (boxes : List BoxSpec) (spacing : Int) : List (List Char) :=
  (List.range (rowMaxHeight boxes)).map (fun r =>
    List.intercalate (pyRep ' ' spacing) ((rowPadded boxes).map (fun b => b.getD r [])))

/-- The widths `len(box[0])` of the (padded) rendered boxes. -/
def rowWidths (boxes : List BoxSpec) : List Nat :=
  (rowPadded boxes).map (fun b => (b.headD []).length)

/-- The accumulation `box_centers.append(pos + box_width // 2);
pos += box_width + spacing`. -/
def rowCentersAux (ws : List Nat) (pos spacing : Int) : List Int :=
  match ws with
  | [] => []
  | w :: rest => (pos + ((w / 2 : Nat) : Int)) :: rowCentersAux rest (pos + w + spacing) spacing

def rowPosAux (ws : List Nat) (pos spacing : Int) : Int :=
  match ws with
  | [] => pos
  | w :: rest => rowPosAux rest (pos + (w : Int) + spacing) spacing

def rowCenters (boxes : List BoxSpec) (spacing : Int) : List Int :=
  rowCentersAux (rowWidths boxes) 0 spacing

/-- `total_width = pos - spacing` after the accumulation loop. -/
def rowTotal (boxes : List BoxSpec) (spacing : Int) : Int :=
  rowPosAux (rowWidths boxes) 0 spacing - spacing

/-- Merge line 1: a vertical glyph at each box center. -/
def mergeLine1 (boxes : List BoxSpec) (spacing : Int) : List Char :=
  (rowCenters boxes spacing).foldl
    (fun l c => if c < rowTotal boxes spacing then pySet l c ASCII_v else l)
    (List.replicate (rowTotal boxes spacing).toNat ' ')

/-- Merge line 2: the horizontal connector from the leftmost to the
rightmost center, corners at the ends, down-T at `total_width // 2`. -/
def mergeLine2 (boxes : List BoxSpec) (spacing : Int) : List Char :=
  pySet (pySet (pySet
      (setRangeChar (List.replicate (rowTotal boxes spacing).toNat ' ')
        ((rowCenters boxes spacing).headD 0)
        ((rowCenters boxes spacing).getLastD 0 + 1) ASCII_h)
      ((rowCenters boxes spacing).headD 0) ASCII_bl)
    ((rowCenters boxes spacing).getLastD 0) ASCII_br)
    ((rowTotal boxes spacing).fdiv 2) ASCII_t_down

/-- Merge line 3: a single vertical glyph at `total_width // 2`. -/
def mergeCenterLine (boxes : List BoxSpec) (spacing : Int) : List Char :=
  pySet (List.replicate (rowTotal boxes spacing).toNat ' ')
    ((rowTotal boxes spacing).fdiv 2) ASCII_v

/-- `_ascii_box_row(boxes, spacing, merge_bottom)`: boxes side by side,
heights equalized, optionally followed by the three merge lines. -/
def _ascii_box_row (boxes : List BoxSpec) (spacing : Int) (merge_bottom : Bool) :
    List (List Char) :=
  rowCombined boxes spacing ++
    (if merge_bottom = true ∧ 1 < (rowRendered boxes).length
     then [mergeLine1 boxes spacing, mergeLine2 boxes spacing, mergeCenterLine boxes spacing]
     else [])

theorem pySet_length (l : List Char) (i : Int) (c : Char) :
    (pySet l i c).length = l.length := by
  unfold pySet
  split
  · exact List.length_set l _ c
  · split
    · exact List.length_set l _ c
    · rfl

theorem getD_pySet (l : List Char) (i : Int) (c : Char) (j : Nat) (h0 : 0 ≤ i)
    (hj : j < l.length) :
    (pySet l i c).getD j ' ' = if (j : Int) = i then c else l.getD j ' ' := by
  unfold pySet
  rw [if_pos h0]
  by_cases he : (j : Int) = i
  · rw [if_pos he]
    have hij : i.toNat = j := by omega
    subst hij
    rw [List.getD_eq_getElem _ _ (by simpa [List.length_set] using hj)]
    simp [List.getElem_set]
  · rw [if_neg he]
    have hne : i.toNat ≠ j := by omega
    rw [List.getD, List.getD, List.get?_eq_getElem?, List.get?_eq_getElem?,
      List.getElem?_set_ne hne]

theorem getD_replicate (n j : Nat) (c : Char) (hj : j < n) :
    (List.replicate n c).getD j ' ' = c := by
  rw [List.getD_eq_getElem _ _ (by simpa using hj)]
  exact List.getElem_replicate ..

theorem foldl_pySet_length (idxs : List Int) (l : List Char) (c : Char) :
    (idxs.foldl (fun acc i => pySet acc i c) l).length = l.length := by
  induction idxs generalizing l with
  | nil => rfl
  | cons x xs ih => rw [List.foldl_cons, ih, pySet_length]

theorem setRangeChar_length (l : List Char) (a b : Int) (c : Char) :
    (setRangeChar l a b c).length = l.length :=
  foldl_pySet_length _ l c

theorem getD_setRangeChar_aux (c : Char) (k : Nat) :
    ∀ (a b : Int) (l : List Char) (j : Nat), (b - a).toNat = k → 0 ≤ a → j < l.length →
    (setRangeChar l a b c).getD j ' ' =
      if a ≤ (j : Int) ∧ (j : Int) < b then c else l.getD j ' ' := by
  induction k with
  | zero =>
    intro a b l j hk ha hj
    unfold setRangeChar
    rw [intRange_nil a b (by omega)]
    rw [if_neg (by omega)]
    rfl
  | succ k ih =>
    intro a b l j hk ha hj
    unfold setRangeChar
    rw [intRange_cons a b (by omega), List.foldl_cons]
    have hrec := ih (a + 1) b (pySet l a c) j (by omega) (by omega)
      (by rw [pySet_length]; exact hj)
    unfold setRangeChar at hrec
    rw [hrec]
    by_cases hja : (j : Int) = a
    · rw [if_neg (by omega), if_pos (by omega), getD_pySet l a c j ha hj, if_pos hja]
    · by_cases hin : a + 1 ≤ (j : Int) ∧ (j : Int) < b
      · rw [if_pos hin, if_pos (by omega)]
      · rw [if_neg hin, if_neg (by omega), getD_pySet l a c j ha hj, if_neg hja]

theorem getD_setRangeChar (l : List Char) (a b : Int) (c : Char) (j : Nat)
    (ha : 0 ≤ a) (hj : j < l.length) :
    (setRangeChar l a b c).getD j ' ' =
      if a ≤ (j : Int) ∧ (j : Int) < b then c else l.getD j ' ' :=
  getD_setRangeChar_aux c (b - a).toNat a b l j rfl ha hj

theorem rendered_box_head_length (c : List (List Char)) :
    ((_ascii_box (.list c) none 1 false false).headD []).length = maxLen c + 4 := by
  unfold _ascii_box
  dsimp only
  rw [if_neg (by decide), if_neg (by decide)]
  have hin : boxInnerWidth (boxContentLines (.list c)) none 1 = (maxLen c : Int) := by
    simp [boxInnerWidth, widthFalsy, boxContentLines]
  rw [hin]
  simp only [List.singleton_append, List.cons_append, List.headD_cons, List.length_append,
    pyRep_length, List.length_cons, List.length_nil]
  omega

theorem padBoxTo_headD (b : List (List Char)) (h : Nat) (hb : 2 ≤ b.length) :
    (padBoxTo b h).headD [] = b.headD [] := by
  cases b with
  | nil => simp at hb
  | cons x xs =>
    cases xs with
    | nil => simp at hb
    | cons y ys =>
      unfold padBoxTo
      simp

theorem rowWidths_length (boxes : List BoxSpec) :
    (rowWidths boxes).length = boxes.length := by
  simp [rowWidths, rowPadded, rowRendered]

theorem rowWidths_all_ge (boxes : List BoxSpec) : ∀ w ∈ rowWidths boxes, 4 ≤ w := by
  intro w hw
  unfold rowWidths rowPadded rowRendered at hw
  simp only [List.map_map, List.mem_map, Function.comp] at hw
  obtain ⟨bs, hbs, hweq⟩ := hw
  rw [padBoxTo_headD _ _ (by rw [ascii_box_num_lines]; omega),
    rendered_box_head_length] at hweq
  omega

theorem getLastD_all_ge (ws : List Nat) (d : Nat) (h : ∀ w ∈ ws, 4 ≤ w) (hd : 4 ≤ d) :
    4 ≤ ws.getLastD d := by
  induction ws generalizing d with
  | nil => simpa using hd
  | cons x xs ih =>
    rw [List.getLastD_cons]
    exact ih x (fun w hw => h w (List.mem_cons_of_mem _ hw)) (h x (List.mem_cons_self _ _))

theorem getLastD_irrel {α : Type} (l : List α) (d d' : α) (h : l ≠ []) :
    l.getLastD d = l.getLastD d' := by
  cases l with
  | nil => exact absurd rfl h
  | cons x xs => rw [List.getLastD_cons, List.getLastD_cons]

theorem rowPosAux_mono (ws : List Nat) (pos s : Int) (hs : 0 ≤ s) :
    pos ≤ rowPosAux ws pos s := by
  induction ws generalizing pos with
  | nil => exact le_refl pos
  | cons w rest ih =>
    calc pos ≤ pos + (w : Int) + s := by omega
    _ ≤ rowPosAux rest (pos + (w : Int) + s) s := ih _
    _ = rowPosAux (w :: rest) pos s := rfl

theorem rowPosAux_last_le (ws : List Nat) (pos s : Int) (hs : 0 ≤ s) (hne : ws ≠ []) :
    pos + (ws.getLastD 0 : Int) ≤ rowPosAux ws pos s - s := by
  induction ws generalizing pos with
  | nil => exact absurd rfl hne
  | cons w rest ih =>
    cases rest with
    | nil =>
      simp only [List.getLastD_cons, List.getLastD_nil, rowPosAux]
      omega
    | cons u us =>
      have h1 := ih (pos + (w : Int) + s) (by simp)
      have hp : rowPosAux (w :: u :: us) pos s = rowPosAux (u :: us) (pos + (w : Int) + s) s := rfl
      have hl : ((w :: u :: us).getLastD 0) = ((u :: us).getLastD 0) := by
        rw [List.getLastD_cons, getLastD_irrel (u :: us) w 0 (by simp)]
      rw [hp, hl]
      omega

theorem rowCentersAux_last (ws : List Nat) (pos s : Int) (hne : ws ≠ []) :
    (rowCentersAux ws pos s).getLastD 0 =
      rowPosAux ws pos s - s - ((ws.getLastD 0 : Int) - (((ws.getLastD 0) / 2 : Nat) : Int)) := by
  induction ws generalizing pos with
  | nil => exact absurd rfl hne
  | cons w rest ih =>
    cases rest with
    | nil =>
      simp only [rowCentersAux, rowPosAux, List.getLastD_cons, List.getLastD_nil]
      push_cast
      omega
    | cons u us =>
      have h1 := ih (pos + (w : Int) + s) (by simp)
      have hc : (rowCentersAux (w :: u :: us) pos s).getLastD 0 =
          (rowCentersAux (u :: us) (pos + (w : Int) + s) s).getLastD 0 := by
        rw [show rowCentersAux (w :: u :: us) pos s =
            (pos + ((w / 2 : Nat) : Int)) :: rowCentersAux (u :: us) (pos + (w : Int) + s) s
          from rfl, List.getLastD_cons,
          getLastD_irrel (rowCentersAux (u :: us) (pos + (w : Int) + s) s) _ 0
            (by simp [rowCentersAux])]
      have hp : rowPosAux (w :: u :: us) pos s = rowPosAux (u :: us) (pos + (w : Int) + s) s := rfl
      have hl : ((w :: u :: us).getLastD 0) = ((u :: us).getLastD 0) := by
        rw [List.getLastD_cons, getLastD_irrel (u :: us) w 0 (by simp)]
      rw [hc, hp, hl, h1]

theorem ext_getD (l₁ l₂ : List Char) (hl : l₁.length = l₂.length)
    (h : ∀ i, i < l₁.length → l₁.getD i ' ' = l₂.getD i ' ') : l₁ = l₂ := by
  apply List.ext_getElem hl
  intro i h1 h2
  have hh := h i h1
  rwa [List.getD_eq_getElem _ _ h1, List.getD_eq_getElem _ _ h2] at hh

theorem getD_range_map (f : Nat → Char) (n i : Nat) (h : i < n) :
    ((List.range n).map f).getD i ' ' = f i := by
  rw [List.getD_eq_getElem _ _ (by simpa using h)]
  simp

theorem mergeLine2_length (boxes : List BoxSpec) (spacing : Int) :
    (mergeLine2 boxes spacing).length = (rowTotal boxes spacing).toNat := by
  unfold mergeLine2
  rw [pySet_length, pySet_length, pySet_length, setRangeChar_length, List.length_replicate]

theorem mergeCenterLine_length (boxes : List BoxSpec) (spacing : Int) :
    (mergeCenterLine boxes spacing).length = (rowTotal boxes spacing).toNat := by
  unfold mergeCenterLine
  rw [pySet_length, List.length_replicate]

theorem connectorLine_getD (Tn : Nat) (lc rc mid : Int) (i : Nat)
    (h0 : 0 ≤ lc) (h1 : lc < mid) (h2 : mid < rc) (hi : i < Tn) :
    (pySet (pySet (pySet (setRangeChar (List.replicate Tn ' ') lc (rc + 1) ASCII_h)
        lc ASCII_bl) rc ASCII_br) mid ASCII_t_down).getD i ' ' =
      if (i : Int) = mid then ASCII_t_down
      else if (i : Int) = lc then ASCII_bl
      else if (i : Int) = rc then ASCII_br
      else if lc ≤ (i : Int) ∧ (i : Int) ≤ rc then ASCII_h
      else ' ' := by
  have hL3 : (setRangeChar (List.replicate Tn ' ') lc (rc + 1) ASCII_h).length = Tn := by
    rw [setRangeChar_length, List.length_replicate]
  have hL2 : (pySet (setRangeChar (List.replicate Tn ' ') lc (rc + 1) ASCII_h)
      lc ASCII_bl).length = Tn := by
    rw [pySet_length, hL3]
  have hL1 : (pySet (pySet (setRangeChar (List.replicate Tn ' ') lc (rc + 1) ASCII_h)
      lc ASCII_bl) rc ASCII_br).length = Tn := by
    rw [pySet_length, hL2]
  rw [getD_pySet _ _ _ i (by omega) (by rw [hL1]; exact hi)]
  rw [getD_pySet _ _ _ i (by omega) (by rw [hL2]; exact hi)]
  rw [getD_pySet _ _ _ i (by omega) (by rw [hL3]; exact hi)]
  rw [getD_setRangeChar _ _ _ _ i h0 (by rw [List.length_replicate]; exact hi)]
  rw [getD_replicate Tn i ' ' hi]
  split_ifs <;> first | rfl | omega

theorem trailLine_getD (Tn : Nat) (mid : Int) (i : Nat) (h0 : 0 ≤ mid) (hi : i < Tn) :
    (pySet (List.replicate Tn ' ') mid ASCII_v).getD i ' ' =
      if (i : Int) = mid then ASCII_v else ' ' := by
  rw [getD_pySet _ _ _ i h0 (by rw [List.length_replicate]; exact hi)]
  rw [getD_replicate Tn i ' ' hi]

/-- The connector line as the C4 claim describes it positionally: a
single down-T junction at index `total_row_width // 2`, corner glyphs at
the leftmost and rightmost box centers, a horizontal run between the two
centers, blanks elsewhere. -/
def rowMergeConnectorSpec (boxes : List BoxSpec) (spacing : Int) : List Char :=
  (List.range (rowTotal boxes spacing).toNat).map (fun (i : Nat) =>
    if (i : Int) = (rowTotal boxes spacing).fdiv 2 then ASCII_t_down
    else if (i : Int) = (rowCenters boxes spacing).headD 0 then ASCII_bl
    else if (i : Int) = (rowCenters boxes spacing).getLastD 0 then ASCII_br
    else if (rowCenters boxes spacing).headD 0 ≤ (i : Int)
           ∧ (i : Int) ≤ (rowCenters boxes spacing).getLastD 0 then ASCII_h
    else ' ')

/-- The trailing line as the C4 claim describes it: a vertical glyph at
index `total_row_width // 2` only. -/
def rowMergeTrailSpec (boxes : List BoxSpec) (spacing : Int) : List Char :=
  (List.range (rowTotal boxes spacing).toNat).map (fun (i : Nat) =>
    if (i : Int) = (rowTotal boxes spacing).fdiv 2 then ASCII_v else ' ')

/-- C4 — box-row merge geometry: with merge enabled and at least two
boxes, exactly three extra lines are appended below the row; the
connector line has its down-T junction at the horizontal midpoint
`total_row_width // 2` of the whole row (one merge point, strictly
between the two centers, so not one junction per box), with corner
glyphs at the leftmost and rightmost box centers and the horizontal run
between them; the trailing line has its vertical glyph at the same
midpoint. -/
theorem c4_box_row_merge (boxes : List BoxSpec) (spacing : Int)
    (hs : 0 ≤ spacing) (hn : 2 ≤ boxes.length) :
    _ascii_box_row boxes spacing true =
      _ascii_box_row boxes spacing false ++
        [mergeLine1 boxes spacing, mergeLine2 boxes spacing, mergeCenterLine boxes spacing]
    ∧ mergeLine2 boxes spacing = rowMergeConnectorSpec boxes spacing
    ∧ mergeCenterLine boxes spacing = rowMergeTrailSpec boxes spacing
    ∧ (rowCenters boxes spacing).headD 0 < (rowTotal boxes spacing).fdiv 2
    ∧ (rowTotal boxes spacing).fdiv 2 < (rowCenters boxes spacing).getLastD 0 := by
  obtain ⟨w0, ws', hws⟩ : ∃ w0 ws', rowWidths boxes = w0 :: ws' := by
    cases hw : rowWidths boxes with
    | nil =>
      have := rowWidths_length boxes
      rw [hw] at this
      simp at this
      omega
    | cons a l => exact ⟨a, l, rfl⟩
  have hws' : ws' ≠ [] := by
    have := rowWidths_length boxes
    rw [hws] at this
    cases ws' with
    | nil => simp at this; omega
    | cons u us => simp
  have hall := rowWidths_all_ge boxes
  have hw0 : 4 ≤ w0 := hall w0 (by rw [hws]; exact List.mem_cons_self _ _)
  have hwl : 4 ≤ (rowWidths boxes).getLastD 0 := by
    rw [hws, List.getLastD_cons]
    refine getLastD_all_ge ws' w0 (fun w hw => hall w ?_) hw0
    rw [hws]
    exact List.mem_cons_of_mem _ hw
  have hlc : (rowCenters boxes spacing).headD 0 = 0 + ((w0 / 2 : Nat) : Int) := by
    rw [rowCenters, hws]
    rfl
  have hrc := rowCentersAux_last (rowWidths boxes) 0 spacing (by rw [hws]; simp)
  rw [← rowCenters] at hrc
  have hlast' : (ws'.getLastD 0 : Nat) = (rowWidths boxes).getLastD 0 := by
    rw [hws, List.getLastD_cons, getLastD_irrel ws' w0 0 hws']
  have hT1 : (0 : Int) + (w0 : Int) + spacing + ((rowWidths boxes).getLastD 0 : Int) ≤
      rowPosAux (rowWidths boxes) 0 spacing - spacing := by
    have hstep : rowPosAux (rowWidths boxes) 0 spacing =
        rowPosAux ws' ((0 : Int) + (w0 : Int) + spacing) spacing := by
      rw [hws]
      rfl
    have := rowPosAux_last_le ws' ((0 : Int) + (w0 : Int) + spacing) spacing hs hws'
    rw [hstep, ← hlast']
    exact this
  have hTdef : rowTotal boxes spacing = rowPosAux (rowWidths boxes) 0 spacing - spacing := rfl
  have hfd := Int.fdiv_eq_ediv (rowTotal boxes spacing) (b := 2) (by decide)
  have hmid1 : (rowCenters boxes spacing).headD 0 < (rowTotal boxes spacing).fdiv 2 := by
    rw [hlc, hfd]
    omega
  have hmid2 : (rowTotal boxes spacing).fdiv 2 < (rowCenters boxes spacing).getLastD 0 := by
    rw [hrc, hfd]
    omega
  have hrcT : (rowCenters boxes spacing).getLastD 0 < rowTotal boxes spacing := by
    rw [hrc]
    omega
  have h0lc : 0 ≤ (rowCenters boxes spacing).headD 0 := by
    rw [hlc]
    omega
  have hTnat : ((rowTotal boxes spacing).toNat : Int) = rowTotal boxes spacing := by
    omega
  have hm2 : mergeLine2 boxes spacing = rowMergeConnectorSpec boxes spacing := by
    apply ext_getD
    · rw [mergeLine2_length, rowMergeConnectorSpec, List.length_map, List.length_range]
    · intro i hi
      rw [mergeLine2_length] at hi
      unfold mergeLine2 rowMergeConnectorSpec
      rw [getD_range_map _ _ i hi]
      exact connectorLine_getD (rowTotal boxes spacing).toNat _ _ _ i h0lc hmid1 hmid2 hi
  have hm3 : mergeCenterLine boxes spacing = rowMergeTrailSpec boxes spacing := by
    apply ext_getD
    · rw [mergeCenterLine_length, rowMergeTrailSpec, List.length_map, List.length_range]
    · intro i hi
      rw [mergeCenterLine_length] at hi
      unfold mergeCenterLine rowMergeTrailSpec
      rw [getD_range_map _ _ i hi]
      exact trailLine_getD (rowTotal boxes spacing).toNat _ i (by omega) hi
  refine ⟨?_, hm2, hm3, hmid1, hmid2⟩
  unfold _ascii_box_row
  have hlen2 : 1 < (rowRendered boxes).length := by
    simp only [rowRendered, List.length_map]
    omega
  rw [if_pos ⟨rfl, hlen2⟩, if_neg (by simp)]
  rw [List.append_nil]

/-- Witness for C4 on two single-line boxes "A" and "B" with spacing 4. -/
theorem c4_box_row_merge_witness :
    _ascii_box_row [⟨some ['A'], none⟩, ⟨some ['B'], none⟩] 4 true =
      _ascii_box_row [⟨some ['A'], none⟩, ⟨some ['B'], none⟩] 4 false ++
        [mergeLine1 [⟨some ['A'], none⟩, ⟨some ['B'], none⟩] 4,
         mergeLine2 [⟨some ['A'], none⟩, ⟨some ['B'], none⟩] 4,
         mergeCenterLine [⟨some ['A'], none⟩, ⟨some ['B'], none⟩] 4]
    ∧ mergeLine2 [⟨some ['A'], none⟩, ⟨some ['B'], none⟩] 4 =
        rowMergeConnectorSpec [⟨some ['A'], none⟩, ⟨some ['B'], none⟩] 4
    ∧ mergeCenterLine [⟨some ['A'], none⟩, ⟨some ['B'], none⟩] 4 =
        rowMergeTrailSpec [⟨some ['A'], none⟩, ⟨some ['B'], none⟩] 4
    ∧ (rowCenters [⟨some ['A'], none⟩, ⟨some ['B'], none⟩] 4).headD 0 <
        (rowTotal [⟨some ['A'], none⟩, ⟨some ['B'], none⟩] 4).fdiv 2
    ∧ (rowTotal [⟨some ['A'], none⟩, ⟨some ['B'], none⟩] 4).fdiv 2 <
        (rowCenters [⟨some ['A'], none⟩, ⟨some ['B'], none⟩] 4).getLastD 0 := by
  exact c4_box_row_merge [⟨some ['A'], none⟩, ⟨some ['B'], none⟩] 4 (by decide) (by decide)

-- ---------------------------------------------------------------------------
-- Remaining renderers: title box, frame, comment, bar charts, shaded box,
-- table (needed for the full layout-engine dispatch)
-- ---------------------------------------------------------------------------

/-- `_ascii_title_box(title, width)`: a one-line title bar. -/
def _ascii_title_box (title : List Char) (width : Int) : List (List Char) :=
  let inner := width - 2
  [[ASCII_tl] ++ pyRep ASCII_h inner ++ [ASCII_tr],
   [ASCII_v] ++ _ascii_center title inner ++ [ASCII_v],
   [ASCII_bl] ++ pyRep ASCII_h inner ++ [ASCII_br]]

/-- `_ascii_frame(content_lines, width, padding, dashed)`: wrap content in
a (dashed) border with vertical padding. -/
def _ascii_frame (content_lines : List (List Char)) (width : Int) (padding : Int)
    (dashed : Bool) : List (List Char) :=
  let inner_width := width - 4
  let border :=
    if dashed then
      pyTruncAt ((List.replicate ((inner_width + 2).fdiv 2).toNat [ASCII_h, ' ']).flatten)
        (inner_width + 2)
    else pyRep ASCII_h (inner_width + 2)
  [[ASCII_tl] ++ border ++ [ASCII_tr]] ++
    List.replicate padding.toNat ([ASCII_v] ++ pyRep ' ' (inner_width + 2) ++ [ASCII_v]) ++
    content_lines.map (fun line =>
      let padded :=
        if (line.length : Int) < inner_width then line ++ pyRep ' ' (inner_width - line.length)
        else pyTruncAt line inner_width
      [ASCII_v, ' '] ++ padded ++ [' ', ASCII_v]) ++
    List.replicate padding.toNat ([ASCII_v] ++ pyRep ' ' (inner_width + 2) ++ [ASCII_v]) ++
    [[ASCII_bl] ++ border ++ [ASCII_br]]

/-- `_ascii_comment(text)`: the annotation `"  ◄── " + text`. -/
def _ascii_comment (text : List Char) : List Char :=
  [' ', ' ', ASCII_arrow_l, ASCII_h, ASCII_h, ' '] ++ text

/-- `_ascii_bar(value, max_value, bar_width)`: horizontal bar with
eighth-block precision. -/
def _ascii_bar (value max_value : ℚ) (bar_width : Int) : List Char :=
  if max_value ≤ 0 ∨ value ≤ 0 then []
  else
    let r := min (value / max_value) 1
    let total_eighths := pyInt (r * (bar_width : ℚ) * 8)
    let full_blocks := total_eighths.fdiv 8
    let remainder := total_eighths % 8
    List.replicate full_blocks.toNat (CHART_BLOCKS.getD 0 ' ') ++
      (if 0 < remainder then [CHART_BLOCKS.getD (8 - remainder).toNat ' '] else [])

/-- Insert a thousands separator every three digits (digit list given in
reverse order, counter of remaining digits in the current group). -/
def groupRev : List Char → Nat → List Char
  | [], _ => []
  | c :: rest, 0 => ',' :: c :: groupRev rest 2
  | c :: rest, k + 1 => c :: groupRev rest k

def fmtGroupedNat (n : Nat) : List Char :=
  (groupRev (Nat.toDigits 10 n).reverse 3).reverse

/-- Model of Python `f"{v:,.0f}"` on exact rationals (round half to even,
thousands separators; negative zero is rendered as "0"). -/
def fmtThousands0 (v : ℚ) : List Char :=
  let n := roundHalfEven v
  if n < 0 then '-' :: fmtGroupedNat (-n).toNat else fmtGroupedNat n.toNat

/-- Model of Python `f"{v:,.{d}f}"` for `d ≥ 1` fractional digits on
exact rationals (round half to even at the last digit). -/
def fmtThousandsFrac (v : ℚ) (d : Nat) : List Char :=
  let scaled := roundHalfEven (v * ((10 : ℚ) ^ d))
  let a := scaled.natAbs
  let fracDigits := Nat.toDigits 10 (a % 10 ^ d)
  (if scaled < 0 then ['-'] else []) ++ fmtGroupedNat (a / 10 ^ d) ++ ['.'] ++
    List.replicate (d - fracDigits.length) '0' ++ fracDigits

/-- Python `str.ljust` with an `int` width argument. -/
def pyLjustI (s : List Char) (w : Int) : List Char :=
  s ++ pyRep ' ' (w - s.length)

/-- `_ascii_bar_chart(data, bar_width, show_values, label_width)`. -/
def _ascii_bar_chart (data : List (List Char × ℚ)) (bar_width : Int)
    (show_values : Bool) (label_width : Option Int) : List (List Char) :=
  if data = [] then []
  else
    let max_value := listMaxQ (data.map (fun p => p.2))
    let lw : Int :=
      match label_width with
      | none => (maxLen (data.map (fun p => p.1)) : Int)
      | some w => w
    data.map (fun p =>
      let bar := _ascii_bar p.2 max_value bar_width
      let line := pyLjustI p.1 lw ++ [' ', ASCII_v] ++ bar
      if show_values then
        line ++ [' '] ++ (if p.2.den = 1 then fmtThousands0 p.2 else fmtThousandsFrac p.2 2)
      else line)

/-- Python `str.rstrip()` (only spaces occur in this engine). -/
def pyRstrip (s : List Char) : List Char :=
  (s.reverse.dropWhile (fun c => c = ' ')).reverse

/-- Python `str.center(w)`, including CPython's
`left = marg/2 + (marg & width & 1)` placement rule. -/
def pyCenter (s : List Char) (w : Int) : List Char :=
  if (s.length : Int) ≥ w then s
  else
    let marg := w - (s.length : Int)
    let left := marg.fdiv 2 + ((marg.toNat &&& w.toNat &&& 1 : Nat) : Int)
    pyRep ' ' left ++ s ++ pyRep ' ' (marg - left)

/-- `_ascii_bar_chart_vertical(data, bar_height, bar_width, show_values, gap)`. -/
def _ascii_bar_chart_vertical (data : List (List Char × ℚ)) (bar_height bar_width : Int)
    (show_values : Bool) (gap : Int) : List (List Char) :=
  if data = [] then []
  else
    let max_value0 := listMaxQ (data.map (fun p => p.2))
    let max_value := if max_value0 ≤ 0 then 1 else max_value0
    let bar_heights := data.map (fun p => pyInt (p.2 / max_value * (bar_height : ℚ) * 8))
    let value_rows :=
      if show_values then
        [pyRstrip ((data.map (fun p =>
          pyCenter (if p.2.den = 1 then fmtThousands0 p.2 else fmtThousandsFrac p.2 1)
            bar_width ++ pyRep ' ' gap)).flatten), []]
      else []
    let chart_rows := ((intRange 1 (bar_height + 1)).reverse).map (fun row =>
      pyRstrip ((bar_heights.map (fun e =>
        (if e ≥ row * 8 then pyRep (CHART_BLOCKS.getD 0 ' ') bar_width
         else if e > (row - 1) * 8 then
           let p := e - (row - 1) * 8
           pyRep (if 0 < p then SPARKLINE_CHARS.getD (p - 1).toNat ' ' else ' ') bar_width
         else pyRep ' ' bar_width) ++ pyRep ' ' gap)).flatten))
    let total_width := (data.length : Int) * (bar_width + gap) - gap
    let label_row := pyRstrip ((data.map (fun p =>
      pyCenter (pyTruncAt p.1 bar_width) bar_width ++ pyRep ' ' gap)).flatten)
    value_rows ++ chart_rows ++ [pyRep ASCII_h total_width] ++ [label_row]

/-- Rational floor-approximation standing in for the float `math.sqrt`
of the radial direction (irrational in general, so not exactly
representable); no claim in this development depends on radial shade
values. -/
def ratSqrt (q : ℚ) : ℚ :=
  if q ≤ 0 then 0 else ((Nat.sqrt (q.num.toNat * q.den) : Int) : ℚ) / (q.den : ℚ)

def dirHorizontal : String := "horizontal"
def dirVertical : String := "vertical"
def dirRadial : String := "radial"
def dirDiagonal : String := "diagonal"
def dirDiagonalReverse : String := "diagonal_reverse"

/-- `_ascii_shade_value(x, y, width, height, direction)`: raw directional
shade in `[0,1]`. -/
def _ascii_shade_value (x y width height : Int) (direction : String) : ℚ :=
  if width ≤ 0 ∨ height ≤ 0 then 1/2
  else
    let center_x : ℚ := (width : ℚ) / 2
    let center_y : ℚ := (height : ℚ) / 2
    if direction = dirHorizontal then (x : ℚ) / (width : ℚ)
    else if direction = dirVertical then (y : ℚ) / (height : ℚ)
    else if direction = dirRadial then
      let dx := if 0 < center_x then ((x : ℚ) - center_x) / center_x else 0
      let dy := if 0 < center_y then ((y : ℚ) - center_y) / center_y else 0
      min (ratSqrt (dx * dx + dy * dy)) 1
    else if direction = dirDiagonal then ((x : ℚ) + (y : ℚ)) / ((width : ℚ) + (height : ℚ))
    else if direction = dirDiagonalReverse then
      ((width : ℚ) - (x : ℚ) + (y : ℚ)) / ((width : ℚ) + (height : ℚ))
    else 1/2

/-- `BOX_STYLES` entries: eleven named glyphs. -/
structure BoxStyle where
  h : Char
  v : Char
  tl : Char
  tr : Char
  bl : Char
  br : Char
  t_down : Char
  t_up : Char
  t_right : Char
  t_left : Char
  cross : Char

def styleLight : BoxStyle := ⟨'─', '│', '┌', '┐', '└', '┘', '┬', '┴', '├', '┤', '┼'⟩
def styleHeavy : BoxStyle := ⟨'━', '┃', '┏', '┓', '┗', '┛', '┳', '┻', '┣', '┫', '╋'⟩
def styleDouble : BoxStyle := ⟨'═', '║', '╔', '╗', '╚', '╝', '╦', '╩', '╠', '╣', '╬'⟩
def styleRounded : BoxStyle := ⟨'─', '│', '╭', '╮', '╰', '╯', '┬', '┴', '├', '┤', '┼'⟩

def styleLightName : String := "light"
def styleHeavyName : String := "heavy"
def styleDoubleName : String := "double"
def styleRoundedName : String := "rounded"

/-- `BOX_STYLES.get(box_style, BOX_STYLES["light"])`. -/
def boxStyleOf (name : String) : BoxStyle :=
  if name = styleLightName then styleLight
  else if name = styleHeavyName then styleHeavy
  else if name = styleDoubleName then styleDouble
  else if name = styleRoundedName then styleRounded
  else styleLight

/-- `_ascii_shaded_box(width, height, title, palette, direction, contrast,
box_style)`: bordered rectangle with a quantized gradient interior. -/
def _ascii_shaded_box (width height : Int) (title : Option (List Char)) (palette : String)
    (direction : String) (contrast : ℚ) (box_style : String) : List (List Char) :=
  let chars := boxStyleOf box_style
  let shade_chars := shadingPalette palette
  let inner_width := width - 2
  let inner_height := height - 2
  let plainTop := [chars.tl] ++ pyRep chars.h inner_width ++ [chars.tr]
  let top :=
    match title with
    | some t =>
      if t = [] then plainTop
      else
        let title_display := [' '] ++ t ++ [' ']
        let title_len := (title_display.length : Int)
        let left_pad := (inner_width - title_len).fdiv 2
        let right_pad := inner_width - title_len - left_pad
        [chars.tl] ++ pyRep chars.h left_pad ++ title_display ++ pyRep chars.h right_pad ++
          [chars.tr]
    | none => plainTop
  let midRows := (intRange 0 inner_height).map (fun y =>
    [chars.v] ++ (intRange 0 inner_width).map (fun x =>
      let shade := _ascii_shade_value x y inner_width inner_height direction
      let shade2 := _ascii_apply_contrast shade contrast
      shade_chars.getD (shadeCharIdx shade2 shade_chars.length).toNat ' ') ++ [chars.v])
  [top] ++ midRows ++ [[chars.bl] ++ pyRep chars.h inner_width ++ [chars.br]]

/-- The column-width loop of `_ascii_table`: pointwise max of the current
widths and one row's cell lengths (extra cells ignored). -/
def updateWidths : List Nat → List (List Char) → List Nat
  | ws, [] => ws
  | [], _ => []
  | w :: ws, c :: cs => max w c.length :: updateWidths ws cs

/-- One border line of `_ascii_table`: per column `h*(w+2)` then a
junction glyph, the final column closed by `last`. -/
def tableBorder (hch junction last : Char) : List Nat → List Char
  | [] => []
  | [w] => List.replicate (w + 2) hch ++ [last]
  | w :: rest => List.replicate (w + 2) hch ++ [junction] ++ tableBorder hch junction last rest

/-- One content line of `_ascii_table`: leading vertical, then per cell
`" cell.ljust(w) "` and a vertical. -/
def tableRowLine (vch : Char) (pairs : List (List Char × Nat)) : List Char :=
  [vch] ++ (pairs.map (fun p => [' '] ++ pyLjust p.1 p.2 ++ [' ', vch])).flatten

/-- `_ascii_table(headers, rows, box_style)`. -/
def _ascii_table (headers : List (List Char)) (rows : List (List (List Char)))
    (box_style : String) : List (List Char) :=
  let chars := boxStyleOf box_style
  let col_widths := rows.foldl updateWidths (headers.map (fun hd => hd.length))
  [[chars.tl] ++ tableBorder chars.h chars.t_down chars.tr col_widths,
   tableRowLine chars.v (headers.zip col_widths),
   [chars.t_right] ++ tableBorder chars.h chars.cross chars.t_left col_widths] ++
    rows.map (fun row => tableRowLine chars.v (row.zip col_widths)) ++
    [[chars.bl] ++ tableBorder chars.h chars.t_up chars.br col_widths]

-- ---------------------------------------------------------------------------
-- `_ascii_diagram`: the layout engine
-- ---------------------------------------------------------------------------

def tagTitle : String := "title"
def tagRow : String := "row"
def tagBox : String := "box"
def tagSpacer : String := "spacer"
def tagText : String := "text"
def tagArrow : String := "arrow"
def tagBarChart : String := "bar_chart"
def tagBarChartVertical : String := "bar_chart_vertical"
def tagSparkline : String := "sparkline"
def tagProgress : String := "progress"
def tagShadedBox : String := "shaded_box"
def tagTable : String := "table"

def blocksName : String := "blocks"
def radialName : String := "radial"
def lightName : String := "light"

/-- A diagram element: a Python dict whose fields are read through
`elem.get(key, default)`; absent keys are `none`. The duck-typed `data`
key is split into `data_pairs` (bar charts) and `data_values`
(sparkline) according to shape. -/
structure Element where
  type : Option String := none
  x : Option Int := none
  comment : Option (List Char) := none
  text : Option (List Char) := none
  lines : Option (List (List Char)) := none
  width : Option Int := none
  top_connector : Option Bool := none
  bottom_connector : Option Bool := none
  direction : Option String := none
  length : Option Int := none
  boxes : Option (List BoxSpec) := none
  merge : Option Bool := none
  spacing : Option Int := none
  data_pairs : Option (List (List Char × ℚ)) := none
  data_values : Option (List ℚ) := none
  bar_width : Option Int := none
  label_width : Option Int := none
  show_values : Option Bool := none
  bar_height : Option Int := none
  gap : Option Int := none
  label : Option (List Char) := none
  value : Option ℚ := none
  max : Option ℚ := none
  show_percent : Option Bool := none
  height : Option Int := none
  title : Option (List Char) := none
  palette : Option String := none
  contrast : Option ℚ := none
  box_style : Option String := none
  headers : Option (List (List Char)) := none
  rows : Option (List (List (List Char))) := none

/-- `t = elem.get("type", "text")`. -/
def elemType (e : Element) : String :=
  e.type.getD tagText

/-- The connector auto-detection of the `box` branch: the explicit
`bottom_connector` flag, forced to true when the next element is an
arrow whose direction (default `"down"`) is `"down"`. -/
def boxBottomConn (e : Element) (next : Option Element) : Bool :=
  let b := e.bottom_connector.getD false
  match next with
  | some ne =>
    if (ne.type == some tagArrow) && (ne.direction.getD dirDown == dirDown) then true else b
  | none => b

/-- The top connector is only ever the explicit request. -/
def boxTopConn (e : Element) : Bool :=
  e.top_connector.getD false

/-- The per-element dispatch of `_ascii_diagram` (one loop iteration);
`next` is the lookahead `elements[idx + 1]`. -/
def renderElem (e : Element) (next : Option Element) (inner_width : Int) :
    List (List Char) :=
  let t := elemType e
  let x := e.x.getD 0
  let indent := pyRep ' ' x
  let comment_str :=
    match e.comment with
    | some c => if c = [] then [] else _ascii_comment c
    | none => []
  if t = tagTitle then _ascii_title_box (e.text.getD []) inner_width
  else if t = tagRow then
    let row_lines := _ascii_box_row (e.boxes.getD []) (e.spacing.getD 4) (e.merge.getD false)
    match row_lines with
    | [] => []
    | r0 :: _ =>
      let row_width := (r0.length : Int)
      let row_offset := if row_width < inner_width then (inner_width - row_width).fdiv 2 else 0
      row_lines.map (fun line => pyRep ' ' row_offset ++ line)
  else if t = tagBox then
    let box_lines := _ascii_box (.list (e.lines.getD [e.text.getD []])) e.width 1
      (boxBottomConn e next) (boxTopConn e)
    let middle_idx := box_lines.length / 2
    let actual_box_width : Int := ((box_lines.headD []).length : Int)
    let center_pos := inner_width.fdiv 2
    let center_offset :=
      if x = 0 ∧ actual_box_width < inner_width then center_pos - actual_box_width.fdiv 2
      else 0
    let center_indent := pyRep ' ' (max 0 center_offset)
    box_lines.enum.map (fun p =>
      let full_line := (if x = 0 then center_indent else indent) ++ p.2
      if comment_str ≠ [] ∧ p.1 = middle_idx then full_line ++ comment_str else full_line)
  else if t = tagSpacer then [[]]
  else if t = tagText then [indent ++ e.text.getD [] ++ comment_str]
  else if t = tagArrow then
    let direction := e.direction.getD dirDown
    if direction = dirDown ∨ direction = dirUp then
      let arrow_char := if direction = dirDown then ASCII_arrow_d else ASCII_arrow_u
      let len0 := e.length.getD 1
      let arrow_indent := if x = 0 then pyRep ' ' (inner_width.fdiv 2) else indent
      if direction = dirDown then
        List.replicate len0.toNat (arrow_indent ++ [ASCII_v]) ++ [arrow_indent ++ [arrow_char]]
      else
        [arrow_indent ++ [arrow_char]] ++ List.replicate len0.toNat (arrow_indent ++ [ASCII_v])
    else [indent ++ _ascii_arrow direction (e.length.getD 8)]
  else if t = tagBarChart then
    (_ascii_bar_chart (e.data_pairs.getD []) (e.bar_width.getD 20) (e.show_values.getD true)
      e.label_width).map (fun line => indent ++ line)
  else if t = tagBarChartVertical then
    (_ascii_bar_chart_vertical (e.data_pairs.getD []) (e.bar_height.getD 10)
      (e.bar_width.getD 5) (e.show_values.getD true) (e.gap.getD 2)).map
      (fun line => indent ++ line)
  else if t = tagSparkline then
    let label := e.label.getD []
    [indent ++ (if label ≠ [] then label ++ [' '] else []) ++
      _ascii_sparkline (e.data_values.getD []) ++ comment_str]
  else if t = tagProgress then
    let label := e.label.getD []
    [indent ++ (if label ≠ [] then label ++ [' '] else []) ++
      _ascii_progress_bar (e.value.getD 0) (e.max.getD 100) (e.width.getD 20)
        (e.show_percent.getD true) ++ comment_str]
  else if t = tagShadedBox then
    (_ascii_shaded_box (e.width.getD 40) (e.height.getD 10) e.title
      (e.palette.getD blocksName) (e.direction.getD radialName) (e.contrast.getD (7/10))
      (e.box_style.getD lightName)).map (fun line => indent ++ line)
  else if t = tagTable then
    (_ascii_table (e.headers.getD []) (e.rows.getD []) (e.box_style.getD lightName)).map
      (fun line => indent ++ line)
  else []

/-- The index-based loop of `_ascii_diagram` with its one-element
lookahead `elements[idx + 1]`. -/
def diagramLines (elements : List Element) (inner_width : Int) : List (List Char) :=
  match elements with
  | [] => []
  | e :: rest => renderElem e rest.head? inner_width ++ diagramLines rest inner_width

/-- `_ascii_diagram(elements, width, frame)`: the newline-joined final
text block. -/
def _ascii_diagram (elements : List Element) (width : Int) (frame : Bool) : List Char :=
  let inner_width := if frame then width - 4 else width
  let result := diagramLines elements inner_width
  let result := if frame then _ascii_frame result width 1 true else result
  List.intercalate ['\n'] result

/-- C6 — connector auto-detection: for every element list and index `i`
holding a box element, the bottom-connector flag passed to the box
renderer is true iff the box requested it explicitly or the element at
`i+1` exists, has type `arrow`, and has direction `down` (also when the
direction key is absent, `down` being the default); the top connector is
only ever the explicit request. -/
theorem c6_connector_auto_detect (elements : List Element) (i : Nat) (e : Element)
    (he : elements.get? i = some e) (ht : elemType e = tagBox) :
    (boxBottomConn e (elements.get? (i + 1)) = true ↔
      (e.bottom_connector.getD false = true ∨
        ((elements.get? (i + 1)).any (fun ne =>
          ne.type == some tagArrow && ne.direction.getD dirDown == dirDown)) = true))
    ∧ boxTopConn e = e.top_connector.getD false := by
  refine ⟨?_, rfl⟩
  unfold boxBottomConn
  cases hnext : elements.get? (i + 1) with
  | none => simp
  | some ne =>
    dsimp only [Option.any_some]
    by_cases hc : (ne.type == some tagArrow && ne.direction.getD dirDown == dirDown) = true
    · rw [if_pos hc, hc]
      simp
    · rw [if_neg hc]
      simp only [Bool.not_eq_true] at hc
      rw [hc]
      simp

/-- Witness for C6: a box immediately followed by a bare arrow element
gets the automatic bottom connector. -/
theorem c6_connector_auto_detect_witness :
    (boxBottomConn { type := some tagBox, text := some ['A'] }
        (([{ type := some tagBox, text := some ['A'] },
           { type := some tagArrow }] : List Element).get? (0 + 1)) = true ↔
      (({ type := some tagBox, text := some ['A'] } : Element).bottom_connector.getD false = true ∨
        ((([{ type := some tagBox, text := some ['A'] },
            { type := some tagArrow }] : List Element).get? (0 + 1)).any (fun ne =>
          ne.type == some tagArrow && ne.direction.getD dirDown == dirDown)) = true))
    ∧ boxTopConn { type := some tagBox, text := some ['A'] } =
        ({ type := some tagBox, text := some ['A'] } : Element).top_connector.getD false := by
  exact c6_connector_auto_detect
    [{ type := some tagBox, text := some ['A'] }, { type := some tagArrow }] 0
    { type := some tagBox, text := some ['A'] } rfl rfl

-- ---------------------------------------------------------------------------
-- C9: unknown element types
-- ---------------------------------------------------------------------------

/-- The twelve element kinds the dispatch recognizes. -/
def recognizedTags : List String :=
  [tagTitle, tagRow, tagBox, tagSpacer, tagText, tagArrow, tagBarChart,
   tagBarChartVertical, tagSparkline, tagProgress, tagShadedBox, tagTable]

theorem renderElem_unknown (e : Element) (next : Option Element) (w : Int)
    (h : elemType e ∉ recognizedTags) : renderElem e next w = [] := by
  simp only [recognizedTags, List.mem_cons, List.not_mem_nil, or_false, not_or] at h
  obtain ⟨h1, h2, h3, h4, h5, h6, h7, h8, h9, h10, h11, h12⟩ := h
  unfold renderElem
  dsimp only
  rw [if_neg h1, if_neg h2, if_neg h3, if_neg h4, if_neg h5, if_neg h6, if_neg h7,
    if_neg h8, if_neg h9, if_neg h10, if_neg h11, if_neg h12]

theorem boxBottomConn_not_arrowDown (e ne : Element)
    (h : (ne.type == some tagArrow && ne.direction.getD dirDown == dirDown) = false) :
    boxBottomConn e (some ne) = e.bottom_connector.getD false := by
  unfold boxBottomConn
  dsimp only
  rw [h, if_neg (by decide)]

/-- An element whose effective type is unrecognized cannot be an
arrow-with-direction-down for the lookahead. -/
theorem unknown_not_arrowDown (e : Element) (h : elemType e ∉ recognizedTags) :
    (e.type == some tagArrow && e.direction.getD dirDown == dirDown) = false := by
  cases hty : e.type with
  | none =>
    exfalso
    apply h
    have : elemType e = tagText := by simp [elemType, hty]
    rw [this]
    simp [recognizedTags]
  | some t =>
    have hne : t ≠ tagArrow := by
      intro heq
      apply h
      have : elemType e = t := by simp [elemType, hty]
      rw [this, heq]
      simp [recognizedTags]
    have hb : ((some t == some tagArrow) : Bool) = false := by
      simp [hne]
    rw [hb, Bool.false_and]

theorem renderElem_next_congr (e : Element) (n1 n2 : Option Element) (w : Int)
    (h : elemType e = tagBox → boxBottomConn e n1 = boxBottomConn e n2) :
    renderElem e n1 w = renderElem e n2 w := by
  by_cases hb : elemType e = tagBox
  · unfold renderElem
    rw [h hb]
  · unfold renderElem
    dsimp only
    simp only [if_neg hb]

theorem diagramLines_skip (e : Element) (w : Int) (h : elemType e ∉ recognizedTags) :
    ∀ (xs ys : List Element),
    (∀ p, xs.getLast? = some p → elemType p = tagBox →
      (ys.head?.any (fun ne =>
        ne.type == some tagArrow && ne.direction.getD dirDown == dirDown)) = false) →
    diagramLines (xs ++ e :: ys) w = diagramLines (xs ++ ys) w := by
  intro xs
  induction xs with
  | nil =>
    intro ys hsafe
    show renderElem e ys.head? w ++ diagramLines ys w = diagramLines ([] ++ ys) w
    rw [renderElem_unknown e _ w h, List.nil_append, List.nil_append]
  | cons x xs' ih =>
    intro ys hsafe
    cases xs' with
    | nil =>
      have hxnext : renderElem x (some e) w = renderElem x ys.head? w := by
        apply renderElem_next_congr
        intro hbx
        rw [boxBottomConn_not_arrowDown x e (unknown_not_arrowDown e h)]
        cases hy : ys.head? with
        | none => rfl
        | some ne =>
          have hh := hsafe x rfl hbx
          rw [hy] at hh
          simp only [Option.any_some] at hh
          rw [boxBottomConn_not_arrowDown x ne hh]
      calc diagramLines ((x :: []) ++ e :: ys) w
          = renderElem x (some e) w ++ (renderElem e ys.head? w ++ diagramLines ys w) := rfl
        _ = renderElem x ys.head? w ++ diagramLines ys w := by
            rw [renderElem_unknown e _ w h, List.nil_append, hxnext]
        _ = diagramLines ((x :: []) ++ ys) w := rfl
    | cons u us =>
      have hsafe' : ∀ p, (u :: us).getLast? = some p → elemType p = tagBox →
          (ys.head?.any (fun ne =>
            ne.type == some tagArrow && ne.direction.getD dirDown == dirDown)) = false := by
        intro p hp hbp
        apply hsafe p ?_ hbp
        rw [List.getLast?_cons_cons]
        exact hp
      calc diagramLines ((x :: u :: us) ++ e :: ys) w
          = renderElem x (some u) w ++ diagramLines ((u :: us) ++ e :: ys) w := rfl
        _ = renderElem x (some u) w ++ diagramLines ((u :: us) ++ ys) w := by
            rw [ih ys hsafe']
        _ = diagramLines ((x :: u :: us) ++ ys) w := rfl

def tagUnknownSample : String := "wat"

/-- C9 (counterexample) — inserting an unrecognized element between a box
and a down arrow changes the preceding box's rendering (the one-element
lookahead sees the unknown element instead of the arrow, so no automatic
bottom connector is attached), hence the rest of the diagram is not
rendered as if the element were absent. -/
theorem c9_unknown_counterexample :
    diagramLines [{ type := some tagBox, text := some ['A'] },
        { type := some tagUnknownSample }, { type := some tagArrow }] 1 ≠
      diagramLines [{ type := some tagBox, text := some ['A'] },
        { type := some tagArrow }] 1 := by
  decide

/-- C9 (amended) — an element whose type matches none of the recognized
kinds appends zero output lines and raises no error; every other element
still renders from its own fields, and removing the unknown element
leaves the diagram unchanged provided the unknown does not sit directly
between a box element and a down arrow (in that position the box's
lookahead sees the unknown and drops the automatic bottom connector it
would get if the element were truly absent). -/
theorem c9_unknown_element (e : Element) (xs ys : List Element) (w : Int)
    (h : elemType e ∉ recognizedTags)
    (hsafe : ∀ p, xs.getLast? = some p → elemType p = tagBox →
      (ys.head?.any (fun ne =>
        ne.type == some tagArrow && ne.direction.getD dirDown == dirDown)) = false) :
    renderElem e ys.head? w = []
    ∧ diagramLines (xs ++ e :: ys) w = diagramLines (xs ++ ys) w :=
  ⟨renderElem_unknown e _ w h, diagramLines_skip e w h xs ys hsafe⟩

/-- Witness for C9: an element of type "wat" after a text element appends
no lines and its removal leaves the diagram unchanged. -/
theorem c9_unknown_element_witness :
    renderElem { type := some tagUnknownSample } (([] : List Element).head?) 1 = []
    ∧ diagramLines ([{ type := some tagText, text := some ['t'] }] ++
        { type := some tagUnknownSample } :: ([] : List Element)) 1 =
      diagramLines ([{ type := some tagText, text := some ['t'] }] ++ ([] : List Element)) 1 := by
  exact c9_unknown_element { type := some tagUnknownSample }
    [{ type := some tagText, text := some ['t'] }] [] 1 (by decide)
    (by
      intro p hp hbp
      simp)

end AsciiDiagram
